import Mathlib

/-!
Verification of the ProductiveBot task/thought extraction pipeline
(`bot/utils.py`, `bot/handlers/tasks.py`, `bot/csv_db.py`).

The Python code is shallowly embedded over `List Char` strings and a
plain proleptic-Gregorian calendar model.  Modelling conventions:

* Whitespace is the four ASCII characters space, tab, newline, carriage
  return; digits are the ASCII digits `0`-`9` (the inputs of interest are
  ASCII/Cyrillic text where Python's Unicode classes agree with this).
* Python `str.lower()` is modelled on ASCII letters and the basic
  Cyrillic block, which covers the routing sentinel «мысли».
* `Europe/Moscow` is a fixed UTC+3 zone in the modern dates the bot
  handles, so timezone-aware datetimes are modelled as naive
  (date, wall-clock) pairs compared lexicographically.
* Calls into external services (the OpenAI endpoint, Notion, pandas/CSV
  writes) are modelled by parameters: the classifier response arrives as
  the outcome of `json.loads` on the fence-stripped response text, and
  file/remote writes as success booleans.
* Exceptions are modelled with `Except String`; a Python `try/except`
  returning `None` becomes a match collapsing `.error` to `none`.
-/

set_option autoImplicit false

namespace ProductiveBot

/-! ### Python string primitives (`str.strip`, `str.split`, `str.rfind`, ...) -/

/-- Whitespace as matched by `\s` / `str.strip` on the ASCII inputs we model. -/
def isWs (c : Char) : Bool :=
  c == ' ' || c == '\t' || c == '\n' || c == '\r'

/-- ASCII digit, as matched by `\d` and `str.isdigit` on ASCII input. -/
def isDigitChar (c : Char) : Bool :=
  48 ≤ c.toNat && c.toNat ≤ 57

/-- `str.lstrip()`. -/
def trimLeft (s : List Char) : List Char := s.dropWhile isWs

/-- `str.rstrip()`. -/
def trimRight (s : List Char) : List Char :=
  (s.reverse.dropWhile isWs).reverse

/-- `str.strip()`. -/
def pyStrip (s : List Char) : List Char := trimLeft (trimRight s)

/-- Worker for `str.split()` (split on whitespace runs, dropping empties);
`acc` holds the characters of the token being read, reversed. -/
def pySplitAux : List Char → List Char → List (List Char)
  | [], acc => if acc.isEmpty then [] else [acc.reverse]
  | c :: rest, acc =>
    if isWs c then
      if acc.isEmpty then pySplitAux rest [] else acc.reverse :: pySplitAux rest []
    else pySplitAux rest (c :: acc)

/-- `str.split()` with no separator argument. -/
def pySplit (s : List Char) : List (List Char) := pySplitAux s []

/-- Does `pat` occur in `s` starting at index `i`? -/
def occursAt (s pat : List Char) (i : Nat) : Bool :=
  (s.drop i).take pat.length == pat

/-- Scan indices `i, i-1, ..., 0` for the highest occurrence of `pat`. -/
def rfindAux (s pat : List Char) : Nat → Option Nat
  | 0 => if occursAt s pat 0 then some 0 else none
  | i + 1 => if occursAt s pat (i + 1) then some (i + 1) else rfindAux s pat i

/-- `str.rfind`: index of the last occurrence, `none` for Python's `-1`. -/
def rfindNat (s pat : List Char) : Option Nat := rfindAux s pat s.length

/-- `int(...)` on a string of ASCII digits. -/
def digitsToNat (s : List Char) : Nat :=
  s.foldl (fun a c => a * 10 + (c.toNat - 48)) 0

/-- Little-endian decimal digits of `n` (empty for 0), with explicit fuel
so that the recursion is structural; any `fuel ≥ n` gives the digits. -/
def natToDigitsRev (fuel n : Nat) : List Nat :=
  match fuel with
  | 0 => []
  | fuel + 1 => if n = 0 then [] else n % 10 :: natToDigitsRev fuel (n / 10)

/-- `str(n)` for a natural number: the canonical decimal representation,
most significant digit first, no leading zeros, `"0"` for zero. -/
def natStr (n : Nat) : List Char :=
  if n = 0 then ['0']
  else (natToDigitsRev n n).reverse.map (fun d => Char.ofNat (48 + d))

/-- `str.removeprefix`. -/
def dropPre (s pre : List Char) : List Char :=
  if s.take pre.length == pre then s.drop pre.length else s

/-- `str.removesuffix`. -/
def dropSuf (s suf : List Char) : List Char :=
  if s.reverse.take suf.length == suf.reverse then
    (s.reverse.drop suf.length).reverse
  else s

/-- Split on `'\n'`, keeping empty parts (always at least one part). -/
def splitOnNL : List Char → List (List Char)
  | [] => [[]]
  | c :: rest =>
    if c = '\n' then [] :: splitOnNL rest
    else
      match splitOnNL rest with
      | p :: ps => (c :: p) :: ps
      | [] => [[c]]

/-- `str.splitlines()` on `'\n'`-separated text: the final empty part that a
trailing newline produces is dropped, and the empty string yields `[]`. -/
def splitlinesNL (s : List Char) : List (List Char) :=
  let ps := splitOnNL s
  if ps.getLast? = some [] then ps.dropLast else ps

/-- `"\n".join(...)`. -/
def joinNL (ls : List (List Char)) : List Char := List.intercalate ['\n'] ls

/-- `str.lower()` on ASCII letters and the basic Cyrillic block
(`А`-`Я` → `а`-`я`, `Ё` → `ё`); identity elsewhere. -/
def pyLowerChar (c : Char) : Char :=
  if 65 ≤ c.toNat && c.toNat ≤ 90 then Char.ofNat (c.toNat + 32)
  else if 0x410 ≤ c.toNat && c.toNat ≤ 0x42F then Char.ofNat (c.toNat + 0x20)
  else if c.toNat == 0x401 then Char.ofNat 0x451
  else c

/-- `str.lower()` (restricted as documented on `pyLowerChar`). -/
def pyLower (s : List Char) : List Char := s.map pyLowerChar

/-! ### Dates, wall-clock times and Moscow-zone datetimes -/

/-- A wall-clock `HH:MM` token as captured by the line regex (unvalidated:
`strptime` validation happens later, as in the source). -/
structure Tm where
  h : Nat
  m : Nat
deriving DecidableEq, Repr

/-- A `datetime.date`. -/
structure PyDate where
  y : Nat
  m : Nat
  d : Nat
deriving DecidableEq, Repr

/-- A timezone-aware `datetime` in the fixed Moscow zone, modelled naive. -/
structure PyDT where
  date : PyDate
  time : Tm
deriving DecidableEq, Repr

def isLeap (y : Nat) : Bool :=
  y % 4 == 0 && (y % 100 != 0 || y % 400 == 0)

def daysInMonth (y m : Nat) : Nat :=
  if m == 2 then (if isLeap y then 29 else 28)
  else if m == 4 || m == 6 || m == 9 || m == 11 then 30
  else 31

/-- Strict `<` on times, as Python compares `time` objects. -/
def tmLtb (a b : Tm) : Bool :=
  a.h < b.h || (a.h == b.h && a.m < b.m)

/-- Strict `<` on dates, as Python compares `date` objects. -/
def dateLtb (a b : PyDate) : Bool :=
  a.y < b.y || (a.y == b.y && (a.m < b.m || (a.m == b.m && a.d < b.d)))

/-- Strict `<` on same-zone aware datetimes (wall-clock lexicographic). -/
def dtLtb (a b : PyDT) : Bool :=
  dateLtb a.date b.date || (a.date == b.date && tmLtb a.time b.time)

/-- Non-strict `≤` on datetimes. -/
def dtLeb (a b : PyDT) : Bool := dtLtb a b || a == b

/-- The calendar successor of a date. -/
def nextDate (d : PyDate) : PyDate :=
  if d.d + 1 ≤ daysInMonth d.y d.m then ⟨d.y, d.m, d.d + 1⟩
  else if d.m + 1 ≤ 12 then ⟨d.y, d.m + 1, 1⟩
  else ⟨d.y + 1, 1, 1⟩

/-- The calendar predecessor of a date. -/
def prevDate (d : PyDate) : PyDate :=
  if 1 < d.d then ⟨d.y, d.m, d.d - 1⟩
  else if 1 < d.m then ⟨d.y, d.m - 1, daysInMonth d.y (d.m - 1)⟩
  else ⟨d.y - 1, 12, 31⟩

/-- A timezone-aware reference timestamp: local calendar date, local
wall-clock time, and UTC offset in minutes (the result of
`datetime.fromisoformat` on an aware ISO string). -/
structure Ts where
  date : PyDate
  time : Tm
  offMin : Int
deriving DecidableEq, Repr

/-- `datetime.fromisoformat(timestamp).astimezone(TZ_MOSCOW).date()`:
shift the wall clock by the offset difference to UTC+3 and carry the
date.  Offsets are within ±24h, so at most two day steps are needed. -/
def mosDate (ts : Ts) : PyDate :=
  let total : Int := (ts.time.h : Int) * 60 + (ts.time.m : Int) + (180 - ts.offMin)
  if total < 0 then prevDate ts.date
  else if total < 1440 then ts.date
  else if total < 2880 then nextDate ts.date
  else nextDate (nextDate ts.date)

/-- `datetime.strptime(s, "%H:%M")` succeeds exactly on valid wall-clock
times; the regex already fixed the digit shape. -/
def checkTimeB (t : Tm) : Bool := t.h < 24 && t.m < 60

/-! ### JSON values and Python dictionaries -/

/-- A JSON value as produced by `json.loads`. -/
inductive JVal where
  | jnull : JVal
  | jbool : Bool → JVal
  | jnum : Int → JVal
  | jstr : List Char → JVal
  | jarr : List JVal → JVal
  | jobj : List (List Char × JVal) → JVal

/-- Is the value a JSON array? -/
def JVal.isArr : JVal → Bool
  | .jarr _ => true
  | _ => false

/-- A Python dict with string keys, in insertion order. -/
abbrev PyDict := List (List Char × JVal)

/-- `d[k] = v`: overwrite the value in place if the key exists, else append
(Python dicts preserve insertion order). -/
def dictSet : PyDict → List Char → JVal → PyDict
  | [], k, v => [(k, v)]
  | (k', v') :: rest, k, v =>
    if k' = k then (k, v) :: rest else (k', v') :: dictSet rest k v

/-- `d.get(k)`. -/
def dictLookup (k : List Char) : PyDict → Option JVal
  | [] => none
  | (k', v') :: rest => if k' = k then some v' else dictLookup k rest

/-! ### The temporal line regex `_RE_LINE`

`^\s*(?P<start>\d{1,2}:\d{2})\s*[-—]\s*(?:(?P<end>\d{1,2}:\d{2})\s*)?(?P<body>.+?)\s*$`

The functions below implement the deterministic result of Python's
backtracking on this pattern: greedy `\d{1,2}` (two digits can only be
followed by `:`, so no real alternative survives), greedy `\s*` runs
(whitespace is disjoint from the digits/dash that follow, except around
the optional end group, where backtracking is spelled out case by case),
preferred-present optional group, and lazy `.+?` before `\s*$`, which
makes the body the rest of the line with trailing whitespace removed. -/

/-- Match `\d{1,2}:\d{2}` at the head of the input, returning the time and
the rest.  Greedy `{1,2}`: two digits are tried first; if the
five-character form fails the one-digit form needs `s[1] = ':'`. -/
def parseTimeAt : List Char → Option (Tm × List Char)
  | c0 :: c1 :: c2 :: c3 :: c4 :: rest =>
    if isDigitChar c0 && isDigitChar c1 && (c2 == ':') &&
        isDigitChar c3 && isDigitChar c4 then
      some (⟨(c0.toNat - 48) * 10 + (c1.toNat - 48),
             (c3.toNat - 48) * 10 + (c4.toNat - 48)⟩, rest)
    else if isDigitChar c0 && (c1 == ':') && isDigitChar c2 && isDigitChar c3 then
      some (⟨c0.toNat - 48, (c2.toNat - 48) * 10 + (c3.toNat - 48)⟩, c4 :: rest)
    else none
  | [c0, c1, c2, c3] =>
    if isDigitChar c0 && (c1 == ':') && isDigitChar c2 && isDigitChar c3 then
      some (⟨c0.toNat - 48, (c2.toNat - 48) * 10 + (c3.toNat - 48)⟩, [])
    else none
  | _ => none

/-- The part of the match after the dash (`r3` is everything following the
dash character).  Mirrors the engine's backtracking order: optional end
group (with its internal `\s*`) first, then body; if everything after the
dash is whitespace the outer `\s*` gives one character back to the body. -/
def matchAfterDash (t1 : Tm) (r3 : List Char) : Option (Tm × Option Tm × List Char) :=
  let p := r3.dropWhile isWs
  match parseTimeAt p with
  | some (t2, p2) =>
    let q := p2.dropWhile isWs
    if !q.isEmpty then some (t1, some t2, trimRight q)
    else if !p2.isEmpty then some (t1, some t2, [p2.getLastD ' '])
    else some (t1, none, trimRight p)
  | none =>
    if !p.isEmpty then some (t1, none, trimRight p)
    else if !r3.isEmpty then some (t1, none, [r3.getLastD ' '])
    else none

/-- Full-line match against `_RE_LINE`: start time, optional explicit end
time, and the body group (which, by laziness of `.+?` against `\s*$`,
carries no trailing whitespace). -/
def matchLine (s : List Char) : Option (Tm × Option Tm × List Char) :=
  match parseTimeAt (s.dropWhile isWs) with
  | none => none
  | some (t1, r1) =>
    match r1.dropWhile isWs with
    | [] => none
    | c :: r3 => if c == '-' || c == '—' then matchAfterDash t1 r3 else none

/-! ### `_parse_activity_lines` (bot/utils.py) -/

/-- The CSAT extraction inside the first pass of `_parse_activity_lines`:

    csat = None
    body_clean = body.strip()
    if body_clean and body_clean.split()[-1].isdigit():
        csat = int(body_clean.split()[-1])
        body_clean = body_clean[: body_clean.rfind(str(csat))].rstrip()

applied here to the already-stripped body; returns `(csat, body_clean)`.
`rfindNat = none` models Python's `rfind` returning `-1`, in which case
`body_clean[:-1]` drops the last character. -/
def extractCsat (bc : List Char) : Option Nat × List Char :=
  if bc.isEmpty then (none, bc)
  else
    match (pySplit bc).getLast? with
    | none => (none, bc)
    | some tok =>
      if tok.all isDigitChar then
        let v := digitsToNat tok
        let cut :=
          match rfindNat bc (natStr v) with
          | some i => bc.take i
          | none => bc.dropLast
        (some v, trimRight cut)
      else (none, bc)

/-- One entry of `raw_tasks` after the first pass. -/
structure RawTask where
  start_time : Tm
  explicit_end : Option Tm
  name : List Char
  csat : Option Nat
deriving DecidableEq, Repr

/-- One entry after the second pass, with `end_time` resolved. -/
structure RawTask2 where
  start_time : Tm
  end_time : Option Tm
  name : List Char
  csat : Option Nat
deriving DecidableEq, Repr

/-- First pass over one line: skip blank lines, skip lines the regex does
not match, and extract CSAT from the stripped body. -/
def lineToRaw (l : List Char) : Option RawTask :=
  if (pyStrip l).isEmpty then none
  else
    match matchLine l with
    | none => none
    | some (t1, e, body) =>
      let (cs, nm) := extractCsat (pyStrip body)
      some ⟨t1, e, nm, cs⟩

/-- First pass of `_parse_activity_lines`. -/
def pass1 (lines : List (List Char)) : List RawTask :=
  lines.filterMap lineToRaw

/-- Second pass: an entry keeps its explicit end; otherwise it borrows the
start time of the immediately following entry, the last entry getting
`none`.  (A matched `HH:MM` string is never empty, so Python's truthiness
test on `explicit_end` is just `isSome`.) -/
def fillEnds : List RawTask → List RawTask2
  | [] => []
  | t :: rest =>
    ⟨t.start_time,
     (match t.explicit_end with
      | some e => some e
      | none => rest.head?.map (·.start_time)),
     t.name, t.csat⟩ :: fillEnds rest

/-- A `ParsedActivity`: the dictionaries built by the final pass. -/
structure ParsedActivity where
  name : List Char
  start_datetime : PyDT
  end_datetime : Option PyDT
  csat : Option Nat
deriving DecidableEq, Repr

/-- Sequential effectful map: the first raised exception aborts the loop,
as in the Python `for` loop of the final pass. -/
def mapE {α β : Type} (f : α → Except String β) : List α → Except String (List β)
  | [] => .ok []
  | a :: as =>
    match f a with
    | .error e => .error e
    | .ok b =>
      match mapE f as with
      | .error e => .error e
      | .ok bs => .ok (b :: bs)

/-- Final pass for one entry: `strptime` both times, combine with the batch
date, and on a midnight crossing run
`end_candidate.replace(day=day.day + 1)` — which raises `ValueError`
whenever `day` is the last day of its month, exactly as
`datetime.replace` does. -/
def finalizeOne (day : PyDate) (t : RawTask2) : Except String ParsedActivity :=
  if !checkTimeB t.start_time then .error "ValueError: strptime %H:%M"
  else
    match t.end_time with
    | none => .ok ⟨t.name, ⟨day, t.start_time⟩, none, t.csat⟩
    | some e =>
      if !checkTimeB e then .error "ValueError: strptime %H:%M"
      else if dtLtb ⟨day, e⟩ ⟨day, t.start_time⟩ then
        if day.d + 1 ≤ daysInMonth day.y day.m then
          .ok ⟨t.name, ⟨day, t.start_time⟩, some ⟨⟨day.y, day.m, day.d + 1⟩, e⟩, t.csat⟩
        else .error "ValueError: day is out of range for month"
      else .ok ⟨t.name, ⟨day, t.start_time⟩, some ⟨day, e⟩, t.csat⟩

/-- `_parse_activity_lines(lines, day)`; `.error` models an escaping
exception. -/
def parse_activity_lines (lines : List (List Char)) (day : PyDate) :
    Except String (List ParsedActivity) :=
  mapE (finalizeOne day) (fillEnds (pass1 lines))

/-! ### `_parse_date` (bot/utils.py) -/

/-- `_RE_DATE_ISO`: the stripped line is exactly `\d{4}-\d{2}-\d{2}`. -/
def matchIsoDate (line : List Char) : Option (Nat × Nat × Nat) :=
  match pyStrip line with
  | [a, b, c, d, s1, e, f, s2, g, h] =>
    if isDigitChar a && isDigitChar b && isDigitChar c && isDigitChar d &&
        (s1 == '-') && isDigitChar e && isDigitChar f && (s2 == '-') &&
        isDigitChar g && isDigitChar h then
      some (digitsToNat [a, b, c, d], digitsToNat [e, f], digitsToNat [g, h])
    else none
  | _ => none

/-- `_RE_DATE_DMY`: the stripped line is exactly
`\d{1,2}[./]\d{1,2}[./]\d{2,4}`. -/
def dmyShape (s : List Char) : Bool :=
  let ds := s.takeWhile isDigitChar
  let r1 := s.dropWhile isDigitChar
  (1 ≤ ds.length && ds.length ≤ 2) &&
    match r1 with
    | sep1 :: r2 =>
      (sep1 == '.' || sep1 == '/') &&
        (let ms := r2.takeWhile isDigitChar
         let r3 := r2.dropWhile isDigitChar
         (1 ≤ ms.length && ms.length ≤ 2) &&
           match r3 with
           | sep2 :: r4 =>
             (sep2 == '.' || sep2 == '/') &&
               (r4.all isDigitChar && 2 ≤ r4.length && r4.length ≤ 4)
           | [] => false)
    | [] => false

/-- `datetime.strptime(tok, "%d.%m.%Y")` on a token of DMY regex shape:
CPython's `%d` accepts values 1-31 (one or two digits), `%m` values 1-12,
`%Y` exactly four digits, the separators must literally be `'.'`, and the
`datetime` constructor then validates the calendar date. -/
def strptimeDmy (tok : List Char) : Except String PyDate :=
  let ds := tok.takeWhile isDigitChar
  let r1 := tok.dropWhile isDigitChar
  match r1 with
  | sep1 :: r2 =>
    let ms := r2.takeWhile isDigitChar
    let r3 := r2.dropWhile isDigitChar
    match r3 with
    | sep2 :: r4 =>
      let dv := digitsToNat ds
      let mv := digitsToNat ms
      let yv := digitsToNat r4
      if (sep1 == '.') && (sep2 == '.') &&
          (1 ≤ dv && dv ≤ 31) && (1 ≤ mv && mv ≤ 12) && (r4.length == 4) &&
          (1 ≤ yv) && (dv ≤ daysInMonth yv mv) then
        .ok ⟨yv, mv, dv⟩
      else .error "ValueError: strptime %d.%m.%Y"
    | [] => .error "ValueError: strptime %d.%m.%Y"
  | [] => .error "ValueError: strptime %d.%m.%Y"

/-- `_parse_date(line)`: `ok (some d)` a parsed date, `ok none` no date
line, `.error` an escaping `ValueError` (`fromisoformat` on an invalid
calendar date, or `strptime` rejecting what `_RE_DATE_DMY` accepted). -/
def parse_date (line : List Char) : Except String (Option PyDate) :=
  match matchIsoDate line with
  | some (y, m, d) =>
    if 1 ≤ y && 1 ≤ m && m ≤ 12 && 1 ≤ d && d ≤ daysInMonth y m then
      .ok (some ⟨y, m, d⟩)
    else .error "ValueError: fromisoformat"
  | none =>
    if dmyShape (pyStrip line) then (strptimeDmy (pyStrip line)).map some
    else .ok none

/-! ### `analyze_task_with_gpt` and the merge step (bot/utils.py) -/

/-- Steps 1-2 of `analyze_task_with_gpt`: split the text into lines, try
`_parse_date` on the first line, fall back to the Moscow date of the
reference timestamp, and run `_parse_activity_lines` on the remaining
lines (all lines when no date line was found). -/
def parsePipeline (text : List Char) (ts : Ts) : Except String (List ParsedActivity) :=
  match splitlinesNL text with
  | [] => .error "ValueError: not enough values to unpack"
  | first :: others =>
    match parse_date first with
    | .error e => .error e
    | .ok dOpt =>
      let day := dOpt.getD (mosDate ts)
      let lines := match dOpt with
        | some _ => others
        | none => first :: others
      parse_activity_lines lines day

/-- Left-pad with `'0'` to the given width. -/
def padZero (w : Nat) (n : Nat) : List Char :=
  List.replicate (w - (natStr n).length) '0' ++ natStr n

/-- `_to_iso_local` on a present datetime:
`dt.astimezone(TZ_MOSCOW).isoformat(timespec="seconds")` for a value
already carried in the fixed Moscow zone. -/
def isoLocal (dt : PyDT) : List Char :=
  padZero 4 dt.date.y ++ '-' :: padZero 2 dt.date.m ++ '-' :: padZero 2 dt.date.d ++
    'T' :: padZero 2 dt.time.h ++ ':' :: padZero 2 dt.time.m ++ ":00+03:00".data

/-- `_to_iso_local` including the `None` case, as stored into the dict. -/
def optIso : Option PyDT → JVal
  | none => .jnull
  | some dt => .jstr (isoLocal dt)

/-- The CSAT value as stored into the merged dict. -/
def optNum : Option Nat → JVal
  | none => .jnull
  | some n => .jnum n

/-- One iteration of the merge loop: the classifier element must be a JSON
object (anything else raises `TypeError` at the item assignment), and the
three local fields are written into it in source order. -/
def mergeOne (loc : ParsedActivity) (remote : JVal) : Except String PyDict :=
  match remote with
  | .jobj kvs =>
    .ok (dictSet (dictSet (dictSet kvs "start_datetime".data
          (.jstr (isoLocal loc.start_datetime)))
        "end_datetime".data (optIso loc.end_datetime))
      "csat".data (optNum loc.csat))
  | _ => .error "TypeError: item assignment"

/-- The merge loop over the positional pairing (lengths already equal). -/
def mergeTasks (parsed : List ParsedActivity) (gpt : List JVal) :
    Except String (List PyDict) :=
  mapE (fun pr => mergeOne pr.1 pr.2) (parsed.zip gpt)

/-- `task_names = [t["name"] for t in parsed_tasks]` — the list sent to the
classifier prompt. -/
def taskNames (parsed : List ParsedActivity) : List (List Char) :=
  parsed.map (·.name)

/-- `analyze_task_with_gpt` given the outcome of `json.loads` on the
fence-stripped classifier response (`none` models a remote-call failure or
a JSON parse error).  Every raised exception is caught by the function's
`except` clause and becomes `none`.  A successfully parsed non-array
response also ends as `none`: `len` raises `TypeError` on numbers, and for
strings or dicts the iteration yields non-dict elements on which the item
assignment in the merge loop raises `TypeError`. -/
def analyze_task_core (text : List Char) (ts : Ts) (gptParsed : Option JVal) :
    Option (List PyDict) :=
  match parsePipeline text ts with
  | .error _ => none
  | .ok parsed =>
    if parsed.isEmpty then none
    else
      match gptParsed with
      | none => none
      | some (.jarr gpt) =>
        if gpt.length ≠ parsed.length then none
        else (mergeTasks parsed gpt).toOption
      | some _ => none

/-- `response.choices[0].message.content.strip().removeprefix("```json").removesuffix("```")`. -/
def stripFences (raw : List Char) : List Char :=
  dropSuf (dropPre (pyStrip raw) "```json".data) "```".data

/-- `analyze_task_with_gpt` as a function of the raw classifier response
text; `jloads` stands for the standard-library `json.loads`. -/
def analyze_task_with_gpt (text : List Char) (ts : Ts)
    (jloads : List Char → Option JVal) (raw : List Char) : Option (List PyDict) :=
  analyze_task_core text ts (jloads (stripFences raw))

/-- `analyze_thoughts_with_gpt`: strip the code fences, `json.loads` the
rest, and return whatever was parsed — there is no shape check, so a
non-array value is returned as-is; only an exception (parse failure or
remote failure, `jloads ... = none`) becomes `None`. -/
def analyze_thoughts_with_gpt (jloads : List Char → Option JVal)
    (raw : List Char) : Option JVal :=
  jloads (stripFences raw)

/-- `json.loads` restricted to non-negative integer literals — a concrete
fragment of the standard-library parser, enough to exercise the adapters
on small inputs. -/
def jsonNumLit (s : List Char) : Option JVal :=
  if !s.isEmpty && s.all isDigitChar then some (.jnum (digitsToNat s)) else none

/-! ### `save_task` / `save_tasks` (bot/csv_db.py) and `process_tasks` -/

/-- The mutation loop of `save_tasks`:
`for task in tasks_data: task['user_id'] = user_id`. -/
def save_tasks_mutate (tasks : List PyDict) (uid : Int) : List PyDict :=
  tasks.map (fun t => dictSet t "user_id".data (.jnum uid))

/-- `save_tasks(tasks_data, user_id)`: the loop mutates the caller's
dictionaries first; only then does the pandas/CSV write run, modelled by
the `writeOk` flag (the `except` clause turns a write failure into
`False`, after the mutation already happened).  Returns the mutated list
(the state of the caller's argument) and the boolean result. -/
def save_tasks (tasks : List PyDict) (uid : Int) (writeOk : Bool) :
    List PyDict × Bool :=
  (save_tasks_mutate tasks uid, writeOk)

/-- `save_task(task_data, user_id)`: single-dict version, same shape. -/
def save_task (task : PyDict) (uid : Int) (writeOk : Bool) : PyDict × Bool :=
  (dictSet task "user_id".data (.jnum uid), writeOk)

/-- What one `process_tasks` invocation persists. -/
structure PersistOutcome where
  csvRows : List PyDict
  notionRows : List PyDict
  success : Bool

/-- `process_tasks` (bot/handlers/tasks.py) reduced to its persistence
behaviour: `analyzeResult` is what `analyze_task_with_gpt` returned;
`notionConn` is whether both Notion token and database id are connected;
`csvOk`/`notionOk` are the collaborators' write outcomes (a failed sink is
modelled as persisting nothing).  When the analysis returns `None` the
handler answers an error message and persists nothing. -/
def process_tasks (notionConn : Bool) (analyzeResult : Option (List PyDict))
    (uid : Int) (csvOk notionOk : Bool) : PersistOutcome :=
  match analyzeResult with
  | none => ⟨[], [], false⟩
  | some td =>
    let saved := save_tasks_mutate td uid
    if !notionConn then
      if csvOk then ⟨saved, [], false⟩ else ⟨[], [], false⟩
    else
      if csvOk then
        if notionOk then ⟨saved, saved, true⟩ else ⟨saved, [], false⟩
      else ⟨[], [], false⟩

/-! ### `handle_text` routing (bot/handlers/tasks.py) -/

/-- The routing of `handle_text`: split the message text into lines (an
empty text raises at the unpacking, modelled `none`), then compare the
*first* line, stripped and lowercased, against the sentinel «мысли»; on a
match the thought pipeline receives the joined remaining lines, stripped,
otherwise the task pipeline receives the full original text. -/
def handle_text_route (text : List Char) : Option (Bool × List Char) :=
  match splitlinesNL text with
  | [] => none
  | first :: rest =>
    if pyLower (pyStrip first) = "мысли".data then
      some (true, pyStrip (joinNL rest))
    else some (false, text)

/-- Modelled from the spec: "the caller checking whether the first
non-empty line of the message equals a sentinel word" — the comparison
value the claim says the routing uses. -/
def spec_firstNonEmptyLine (text : List Char) : Option (List Char) :=
  (splitlinesNL text).find? (fun l => !(pyStrip l).isEmpty)

/-! ### Helper lemmas -/

theorem dateLtb_self (d : PyDate) : dateLtb d d = false := by
  simp [dateLtb]

theorem dtLtb_same_date (d : PyDate) (t1 t2 : Tm) :
    dtLtb ⟨d, t1⟩ ⟨d, t2⟩ = tmLtb t1 t2 := by
  simp [dtLtb, dateLtb_self]

theorem dt_total (a b : PyDT) (h : dtLtb a b = false) : dtLeb b a = true := by
  obtain ⟨⟨ay, am, ad⟩, ⟨ah, amin⟩⟩ := a
  obtain ⟨⟨cy, cm, cd⟩, ⟨ch, cmin⟩⟩ := b
  simp [dtLtb, dtLeb, dateLtb, tmLtb, PyDate.mk.injEq, Tm.mk.injEq,
    PyDT.mk.injEq] at *
  omega

theorem dtLeb_next_day (y m d : Nat) (s e : Tm) :
    dtLeb ⟨⟨y, m, d⟩, s⟩ ⟨⟨y, m, d + 1⟩, e⟩ = true := by
  simp [dtLeb, dtLtb, dateLtb]

theorem mapE_ok_get {α β : Type} (f : α → Except String β) :
    ∀ (l : List α) (ts : List β), mapE f l = .ok ts →
      ts.length = l.length ∧
        ∀ (i : Nat) (a : α), l[i]? = some a →
          ∃ b, ts[i]? = some b ∧ f a = .ok b := by
  intro l
  induction l with
  | nil =>
    intro ts h
    simp [mapE] at h
    subst h
    exact ⟨rfl, by intro i a ha; simp at ha⟩
  | cons x xs ih =>
    intro ts h
    simp only [mapE] at h
    cases hx : f x with
    | error e => rw [hx] at h; exact absurd h (by simp)
    | ok b =>
      rw [hx] at h
      cases hxs : mapE f xs with
      | error e => rw [hxs] at h; exact absurd h (by simp)
      | ok bs =>
        rw [hxs] at h
        cases h
        obtain ⟨hlen, hget⟩ := ih bs hxs
        refine ⟨by simp [hlen], ?_⟩
        intro i a ha
        cases i with
        | zero =>
          simp at ha
          subst ha
          exact ⟨b, by simp, hx⟩
        | succ j =>
          simp at ha ⊢
          exact hget j a ha

theorem mapE_ok_mem {α β : Type} (f : α → Except String β) :
    ∀ (l : List α) (ts : List β), mapE f l = .ok ts →
      ∀ b ∈ ts, ∃ a ∈ l, f a = .ok b := by
  intro l
  induction l with
  | nil =>
    intro ts h b hb
    simp [mapE] at h
    subst h
    simp at hb
  | cons x xs ih =>
    intro ts h b hb
    simp only [mapE] at h
    cases hx : f x with
    | error e => rw [hx] at h; exact absurd h (by simp)
    | ok b0 =>
      rw [hx] at h
      cases hxs : mapE f xs with
      | error e => rw [hxs] at h; exact absurd h (by simp)
      | ok bs =>
        rw [hxs] at h
        cases h
        rcases List.mem_cons.mp hb with hb | hb
        · exact ⟨x, List.mem_cons_self x xs, hb ▸ hx⟩
        · obtain ⟨a, ha, hfa⟩ := ih bs hxs b hb
          exact ⟨a, List.mem_cons_of_mem x ha, hfa⟩

theorem fillEnds_get? :
    ∀ (r : List RawTask) (i : Nat) (a : RawTask), r[i]? = some a →
      (fillEnds r)[i]? =
        some ⟨a.start_time,
          (match a.explicit_end with
           | some e => some e
           | none => (r[i + 1]?).map (·.start_time)),
          a.name, a.csat⟩ := by
  intro r
  induction r with
  | nil => intro i a h; simp at h
  | cons x xs ih =>
    intro i a h
    cases i with
    | zero =>
      simp at h
      subst h
      simp [fillEnds, List.head?_eq_getElem?]
    | succ j =>
      simp at h
      simpa [fillEnds] using ih j a h

theorem finalizeOne_ok_start (day : PyDate) (t : RawTask2) (a : ParsedActivity)
    (h : finalizeOne day t = .ok a) :
    a.start_datetime = ⟨day, t.start_time⟩ ∧ a.name = t.name ∧ a.csat = t.csat := by
  unfold finalizeOne at h
  split at h
  · exact absurd h (by simp)
  · split at h
    · cases h; exact ⟨rfl, rfl, rfl⟩
    · split at h
      · exact absurd h (by simp)
      · split at h
        · split at h
          · cases h; exact ⟨rfl, rfl, rfl⟩
          · exact absurd h (by simp)
        · cases h; exact ⟨rfl, rfl, rfl⟩

theorem finalizeOne_ok_end_ge (day : PyDate) (t : RawTask2) (a : ParsedActivity)
    (e : PyDT) (h : finalizeOne day t = .ok a) (he : a.end_datetime = some e) :
    dtLeb a.start_datetime e = true := by
  unfold finalizeOne at h
  split at h
  · exact absurd h (by simp)
  · split at h
    · cases h; simp at he
    · split at h
      · exact absurd h (by simp)
      · rename_i et _ _
        split at h
        · split at h
          · cases h
            simp at he
            subst he
            exact dtLeb_next_day day.y day.m day.d t.start_time et
          · exact absurd h (by simp)
        · rename_i hlt
          cases h
          simp at he
          subst he
          exact dt_total _ _ (by simpa using hlt)

theorem finalizeOne_none_end (day : PyDate) (t : RawTask2) (a : ParsedActivity)
    (h : finalizeOne day t = .ok a) (hn : t.end_time = none) :
    a.end_datetime = none := by
  unfold finalizeOne at h
  split at h
  · exact absurd h (by simp)
  · split at h
    · cases h; rfl
    · rename_i et heq
      rw [hn] at heq
      exact Option.noConfusion heq

theorem finalizeOne_some_end (day : PyDate) (t : RawTask2) (a : ParsedActivity)
    (et : Tm) (h : finalizeOne day t = .ok a) (hs : t.end_time = some et)
    (hlt : tmLtb et t.start_time = false) :
    a.end_datetime = some ⟨day, et⟩ := by
  unfold finalizeOne at h
  split at h
  · exact absurd h (by simp)
  · split at h
    · rename_i heq
      rw [hs] at heq
      exact Option.noConfusion heq
    · rename_i et' heq
      rw [hs] at heq
      injection heq with he2
      subst he2
      split at h
      · exact absurd h (by simp)
      · split at h
        · rename_i hc
          rw [dtLtb_same_date, hlt] at hc
          exact absurd hc (by simp)
        · cases h; rfl

/-! ### Claim C2 (code bug: midnight rollover on the last day of a month) -/

/-- C2: the claim says the midnight rollover advances `end_datetime` by one
calendar day for every resolved batch date, including the last day of a
month.  The code instead runs `end_candidate.replace(day=day.day + 1)`,
which raises `ValueError` on the last day of any month; the whole batch is
aborted (`analyze_task_with_gpt` returns `None`).  On 2024-01-31 the line
`23:50-00:10 x` produces an error rather than an activity ending
2024-02-01, while on 2024-01-30 the rollover works as claimed. -/
theorem c2_eom_rollover_crash :
    (parse_activity_lines ["23:50-00:10 x".data] ⟨2024, 1, 31⟩).toOption = none ∧
    analyze_task_core "2024-01-31\n23:50-00:10 x".data ⟨⟨2024, 3, 5⟩, ⟨22, 0⟩, 180⟩
        (some (.jarr [.jobj []])) = none ∧
    parse_activity_lines ["23:50-00:10 x".data] ⟨2024, 1, 30⟩ =
      .ok [⟨"x".data, ⟨⟨2024, 1, 30⟩, ⟨23, 50⟩⟩,
            some ⟨⟨2024, 1, 31⟩, ⟨0, 10⟩⟩, none⟩] :=
  ⟨rfl, rfl, rfl⟩

/-! ### Claim C6 (code bug: slash-separated day/month/year dates) -/

/-- C6: the claim says a first line holding a date in day/month/year form
becomes the batch date.  `_RE_DATE_DMY` indeed accepts both `.` and `/`
separators, but `strptime(..., "%d.%m.%Y")` only accepts dots, so a
slash-separated date line raises `ValueError`, the exception escapes
`_parse_date`, and the whole batch returns `None` — instead of using
2024-03-05 as the batch date.  Dot-separated and ISO date lines work. -/
theorem c6_slash_date_crash :
    (parse_date "05/03/2024".data).toOption = none ∧
    analyze_task_core "05/03/2024\n9:00-10:00 x".data ⟨⟨2024, 3, 5⟩, ⟨22, 0⟩, 180⟩
        (some (.jarr [.jobj []])) = none ∧
    parse_date "05.03.2024".data = .ok (some ⟨2024, 3, 5⟩) ∧
    parse_date "2024-03-05".data = .ok (some ⟨2024, 3, 5⟩) :=
  ⟨rfl, rfl, rfl, rfl⟩

/-! ### Claim C3 (corrected: borrowed end times across midnight) -/

/-- C3 counterexample: for the consecutive entries `23:50- a` (no explicit
end) and `0:10- b`, the first entry borrows `0:10` and the rollover moves
its `end_datetime` to the next calendar day, so `A.end_datetime`
(2024-03-06 00:10) differs from `B.start_datetime` (2024-03-05 00:10),
refuting the unconditional `A.end_datetime == B.start_datetime`. -/
theorem c3_borrow_midnight_cex :
    parse_activity_lines ["23:50- a".data, "0:10- b".data] ⟨2024, 3, 5⟩ =
      .ok [⟨"a".data, ⟨⟨2024, 3, 5⟩, ⟨23, 50⟩⟩, some ⟨⟨2024, 3, 6⟩, ⟨0, 10⟩⟩, none⟩,
           ⟨"b".data, ⟨⟨2024, 3, 5⟩, ⟨0, 10⟩⟩, none, none⟩] ∧
    ((some (⟨⟨2024, 3, 6⟩, ⟨0, 10⟩⟩ : PyDT) ==
        some (⟨⟨2024, 3, 5⟩, ⟨0, 10⟩⟩ : PyDT)) = false) :=
  ⟨rfl, rfl⟩

/-! ### Claim C5 (corrected: CSAT extraction with leading zeros) -/

/-- C5 counterexample: the claim says the final purely-numeric token is
removed together with the separating whitespace.  For the body
`читаю книгу 07` the code takes `csat = int("07") = 7` but then cuts at
`rfind(str(7)) = rfind("7")`, so only the canonical digits are removed and
the name keeps the stray `0`: the result is `читаю книгу 0`, not the
claimed `читаю книгу`. -/
theorem c5_leading_zero_cex :
    extractCsat "читаю книгу 07".data = (some 7, "читаю книгу 0".data) ∧
    (("читаю книгу 0".data == "читаю книгу".data) = false) :=
  ⟨rfl, rfl⟩

/-! ### Claim C10 (corrected: all-numeric body with leading zeros) -/

/-- C10 counterexample: for the matched line `9:00-10:00 07`, whose trimmed
body is the single numeric token `07`, the claim says the emitted record
has the empty name.  The code cuts the body at `rfind(str(7))`, so the
record's name is `0`, not the empty string (csat is still 7). -/
theorem c10_leading_zero_cex :
    parse_activity_lines ["9:00-10:00 07".data] ⟨2024, 3, 5⟩ =
      .ok [⟨"0".data, ⟨⟨2024, 3, 5⟩, ⟨9, 0⟩⟩,
            some ⟨⟨2024, 3, 5⟩, ⟨10, 0⟩⟩, some 7⟩] ∧
    ("0".data.isEmpty = false) :=
  ⟨rfl, rfl⟩

/-! ### Claim C7 (corrected: non-array JSON in thought mode) -/

/-- C7 counterexample: the claim says both adapters return `None` whenever
the parsed value is not an array.  In thought mode the code returns
`json.loads`'s result without any shape check: for the response text `5`
the adapter returns the JSON number 5 — a non-array — rather than
`None`. -/
theorem c7_thought_nonarray_cex :
    analyze_thoughts_with_gpt jsonNumLit "5".data = some (.jnum 5) ∧
    (JVal.jnum 5).isArr = false ∧
    (analyze_thoughts_with_gpt jsonNumLit "5".data).isSome = true :=
  ⟨rfl, rfl, rfl⟩

/-! ### Claim C8 (corrected: routing checks the first line, not the first
non-empty line) -/

/-- C8 counterexample: for the message text `"\nмысли"` the first non-empty
line is the sentinel «мысли», so the claim routes it to thought mode; the
code compares only the *first* line (here empty) and routes it to the task
pipeline. -/
theorem c8_blank_first_line_cex :
    handle_text_route "\nмысли".data = some (false, "\nмысли".data) ∧
    (spec_firstNonEmptyLine "\nмысли".data).map (fun l => pyLower (pyStrip l)) =
      some "мысли".data :=
  ⟨rfl, rfl⟩

/-! ### Claim C1 (confirmed: cardinality mismatch aborts the batch) -/

/-- C1: whenever the classifier's parsed response is a JSON array whose
length differs from the number of parsed activities, the merge step aborts
the whole batch: `analyze_task_with_gpt` returns `None`, and
`process_tasks` persists nothing to the CSV store or to Notion for that
batch (zero merged records), in every configuration of the handler. -/
theorem c1_cardinality_guard (text : List Char) (ts : Ts)
    (jloads : List Char → Option JVal) (raw : List Char) (gpt : List JVal)
    (parsed : List ParsedActivity) (notionConn : Bool) (uid : Int)
    (csvOk notionOk : Bool)
    (hp : parsePipeline text ts = .ok parsed)
    (hj : jloads (stripFences raw) = some (.jarr gpt))
    (hlen : gpt.length ≠ parsed.length) :
    analyze_task_with_gpt text ts jloads raw = none ∧
    process_tasks notionConn (analyze_task_with_gpt text ts jloads raw)
        uid csvOk notionOk = ⟨[], [], false⟩ := by
  have h1 : analyze_task_with_gpt text ts jloads raw = none := by
    unfold analyze_task_with_gpt
    rw [hj]
    unfold analyze_task_core
    rw [hp]
    by_cases he : parsed.isEmpty
    · simp [he]
    · simp [he, hlen]
  exact ⟨h1, by rw [h1]; rfl⟩

/-- Inputs for the C1 witness: a three-activity batch and a classifier
response holding only two objects. -/
def c1Text : List Char := "9:00-10:00 a\n10:00-11:00 b\n11:00-12:00 c".data

def c1Ts : Ts := ⟨⟨2024, 3, 5⟩, ⟨22, 0⟩, 180⟩

def c1Raw : List Char := "```json[\x7b\x7d,\x7b\x7d]```".data

/-- `json.loads` tabulated at the single input the witness exercises. -/
def c1Jloads (s : List Char) : Option JVal :=
  if s = "[\x7b\x7d,\x7b\x7d]".data then some (.jarr [.jobj [], .jobj []]) else none

def c1Parsed : List ParsedActivity :=
  [⟨"a".data, ⟨⟨2024, 3, 5⟩, ⟨9, 0⟩⟩, some ⟨⟨2024, 3, 5⟩, ⟨10, 0⟩⟩, none⟩,
   ⟨"b".data, ⟨⟨2024, 3, 5⟩, ⟨10, 0⟩⟩, some ⟨⟨2024, 3, 5⟩, ⟨11, 0⟩⟩, none⟩,
   ⟨"c".data, ⟨⟨2024, 3, 5⟩, ⟨11, 0⟩⟩, some ⟨⟨2024, 3, 5⟩, ⟨12, 0⟩⟩, none⟩]

/-- C1 witness: three parsed activities against a length-2 classifier
array — nothing is produced or persisted. -/
theorem c1_cardinality_guard_witness :
    analyze_task_with_gpt c1Text c1Ts c1Jloads c1Raw = none ∧
    process_tasks true (analyze_task_with_gpt c1Text c1Ts c1Jloads c1Raw)
        1 true true = ⟨[], [], false⟩ :=
  c1_cardinality_guard c1Text c1Ts c1Jloads c1Raw
    [.jobj [], .jobj []] c1Parsed true 1 true true rfl rfl (by decide)

/-! ### Claim C4 (confirmed: end ≥ start invariant) -/

/-- C4: every `ParsedActivity` produced by a successful run of
`_parse_activity_lines` satisfies the invariant that a present
`end_datetime` is not earlier than `start_datetime` (midnight crossings
having been pushed to the next calendar day). -/
theorem c4_end_ge_start (lines : List (List Char)) (d : PyDate)
    (ts : List ParsedActivity) (a : ParsedActivity) (e : PyDT)
    (hok : parse_activity_lines lines d = .ok ts)
    (ha : a ∈ ts) (he : a.end_datetime = some e) :
    dtLeb a.start_datetime e = true := by
  obtain ⟨t, _, hft⟩ := mapE_ok_mem (finalizeOne d) _ ts hok a ha
  exact finalizeOne_ok_end_ge d t a e hft he

/-- C4 witness: a midnight-crossing activity whose produced end
(2024-03-06 00:10) is indeed ≥ its start (2024-03-05 23:50). -/
theorem c4_end_ge_start_witness :
    dtLeb (⟨⟨2024, 3, 5⟩, ⟨23, 50⟩⟩ : PyDT) ⟨⟨2024, 3, 6⟩, ⟨0, 10⟩⟩ = true :=
  c4_end_ge_start ["23:50-0:10 x".data] ⟨2024, 3, 5⟩
    [⟨"x".data, ⟨⟨2024, 3, 5⟩, ⟨23, 50⟩⟩, some ⟨⟨2024, 3, 6⟩, ⟨0, 10⟩⟩, none⟩]
    ⟨"x".data, ⟨⟨2024, 3, 5⟩, ⟨23, 50⟩⟩, some ⟨⟨2024, 3, 6⟩, ⟨0, 10⟩⟩, none⟩
    ⟨⟨2024, 3, 6⟩, ⟨0, 10⟩⟩ rfl (by decide) rfl

/-! ### Claim C9 (confirmed: `save_tasks` mutates its input) -/

theorem dictLookup_set_same (d : PyDict) (k : List Char) (v : JVal) :
    dictLookup k (dictSet d k v) = some v := by
  induction d with
  | nil => simp [dictSet, dictLookup]
  | cons kv rest ih =>
    obtain ⟨k', v'⟩ := kv
    by_cases h : k' = k
    · subst h; simp [dictSet, dictLookup]
    · simp [dictSet, dictLookup, h, ih]

theorem dictLookup_set_other (d : PyDict) (k k2 : List Char) (v : JVal)
    (h : k2 ≠ k) : dictLookup k2 (dictSet d k v) = dictLookup k2 d := by
  induction d with
  | nil => simp [dictSet, dictLookup, Ne.symm h]
  | cons kv rest ih =>
    obtain ⟨k', v'⟩ := kv
    by_cases hk : k' = k
    · subst hk
      simp [dictSet, dictLookup, Ne.symm h]
    · by_cases hk2 : k' = k2
      · subst hk2; simp [dictSet, dictLookup, hk]
      · simp [dictSet, dictLookup, hk, hk2, ih]

/-- C9: `save_tasks` (and `save_task`) mutate the caller's dictionaries:
after the call, every dictionary has `user_id` set to the given user id,
all other keys are unchanged, and the mutation is the same whether or not
the subsequent file write succeeds. -/
theorem c9_save_tasks_mutation (tasks : List PyDict) (uid : Int) (i : Nat)
    (t : PyDict) (k : List Char) (writeOk : Bool)
    (hi : tasks[i]? = some t) (hk : k ≠ "user_id".data) :
    ((save_tasks tasks uid writeOk).1)[i]? =
      some (dictSet t "user_id".data (.jnum uid)) ∧
    (save_tasks tasks uid false).1 = (save_tasks tasks uid true).1 ∧
    dictLookup "user_id".data (dictSet t "user_id".data (.jnum uid)) =
      some (.jnum uid) ∧
    dictLookup k (dictSet t "user_id".data (.jnum uid)) = dictLookup k t ∧
    (save_task t uid writeOk).1 = dictSet t "user_id".data (.jnum uid) := by
  refine ⟨?_, rfl, dictLookup_set_same t _ _, dictLookup_set_other t _ k _ hk, rfl⟩
  simp [save_tasks, save_tasks_mutate, hi]

/-- C9 witness: a two-dict list; the second dict keeps its `name` entry,
gains `user_id := 42`, and the result is independent of the write flag. -/
theorem c9_save_tasks_mutation_witness :
    ((save_tasks [[("name".data, .jstr "a".data)],
        [("name".data, .jstr "b".data)]] 42 false).1)[1]? =
      some (dictSet [("name".data, .jstr "b".data)] "user_id".data (.jnum 42)) ∧
    (save_tasks [[("name".data, .jstr "a".data)],
        [("name".data, .jstr "b".data)]] 42 false).1 =
      (save_tasks [[("name".data, .jstr "a".data)],
        [("name".data, .jstr "b".data)]] 42 true).1 ∧
    dictLookup "user_id".data
        (dictSet [("name".data, .jstr "b".data)] "user_id".data (.jnum 42)) =
      some (.jnum 42) ∧
    dictLookup "name".data
        (dictSet [("name".data, .jstr "b".data)] "user_id".data (.jnum 42)) =
      dictLookup "name".data [("name".data, .jstr "b".data)] ∧
    (save_task [("name".data, .jstr "b".data)] 42 false).1 =
      dictSet [("name".data, .jstr "b".data)] "user_id".data (.jnum 42) :=
  c9_save_tasks_mutation
    [[("name".data, .jstr "a".data)], [("name".data, .jstr "b".data)]]
    42 1 [("name".data, .jstr "b".data)] "name".data false rfl (by decide)

/-- C3 amended: in the ordered sequence of matched entries, an entry with
no explicit end borrows the start time of the immediately following
matched entry, and — provided that next start is not wall-clock-earlier
than the entry's own start (no midnight crossing, as in the spec's
`t2 > t1` side condition) — its `end_datetime` equals the successor's
`start_datetime`; when the borrowed start is earlier, the rollover moves
the end to the next day, so the two differ (see the counterexample).  The
last matched entry with no explicit end and no successor keeps an absent
`end_datetime`. -/
theorem c3_borrow_next_start_amended (lines : List (List Char)) (d : PyDate)
    (i j : Nat) (a b c : RawTask) (ts : List ParsedActivity)
    (hok : parse_activity_lines lines d = .ok ts)
    (ha : (pass1 lines)[i]? = some a)
    (hb : (pass1 lines)[i + 1]? = some b)
    (hae : a.explicit_end = none)
    (hord : tmLtb b.start_time a.start_time = false)
    (hc : (pass1 lines)[j]? = some c)
    (hcn : (pass1 lines)[j + 1]? = none)
    (hce : c.explicit_end = none) :
    (ts[i]?).map (·.end_datetime) = some (some ⟨d, b.start_time⟩) ∧
    (ts[i + 1]?).map (·.start_datetime) = some ⟨d, b.start_time⟩ ∧
    (ts[j]?).map (·.end_datetime) = some none := by
  unfold parse_activity_lines at hok
  obtain ⟨-, hget⟩ := mapE_ok_get (finalizeOne d) _ ts hok
  have hxa := fillEnds_get? (pass1 lines) i a ha
  rw [hae, hb] at hxa
  have hxb := fillEnds_get? (pass1 lines) (i + 1) b hb
  have hxc := fillEnds_get? (pass1 lines) j c hc
  rw [hce, hcn] at hxc
  obtain ⟨A, hAi, hAe⟩ := hget i _ hxa
  obtain ⟨B, hBi, hBe⟩ := hget (i + 1) _ hxb
  obtain ⟨C, hCi, hCe⟩ := hget j _ hxc
  refine ⟨?_, ?_, ?_⟩
  · rw [hAi]
    have := finalizeOne_some_end d _ A b.start_time hAe rfl hord
    simp [this]
  · rw [hBi]
    have := (finalizeOne_ok_start d _ B hBe).1
    simp [this]
  · rw [hCi]
    have := finalizeOne_none_end d _ C hCe rfl
    simp [this]

/-- C3 witness: two entries `9:00- a`, `9:30- b` with no explicit ends and
a final entry with no successor; the first borrows 9:30 as its end, and
the last entry's end is absent. -/
theorem c3_borrow_next_start_amended_witness :
    (([⟨"a".data, ⟨⟨2024, 3, 5⟩, ⟨9, 0⟩⟩, some ⟨⟨2024, 3, 5⟩, ⟨9, 30⟩⟩, none⟩,
       ⟨"b".data, ⟨⟨2024, 3, 5⟩, ⟨9, 30⟩⟩, none, none⟩] :
        List ParsedActivity)[0]?).map (·.end_datetime) =
      some (some ⟨⟨2024, 3, 5⟩, ⟨9, 30⟩⟩) ∧
    (([⟨"a".data, ⟨⟨2024, 3, 5⟩, ⟨9, 0⟩⟩, some ⟨⟨2024, 3, 5⟩, ⟨9, 30⟩⟩, none⟩,
       ⟨"b".data, ⟨⟨2024, 3, 5⟩, ⟨9, 30⟩⟩, none, none⟩] :
        List ParsedActivity)[1]?).map (·.start_datetime) =
      some ⟨⟨2024, 3, 5⟩, ⟨9, 30⟩⟩ ∧
    (([⟨"a".data, ⟨⟨2024, 3, 5⟩, ⟨9, 0⟩⟩, some ⟨⟨2024, 3, 5⟩, ⟨9, 30⟩⟩, none⟩,
       ⟨"b".data, ⟨⟨2024, 3, 5⟩, ⟨9, 30⟩⟩, none, none⟩] :
        List ParsedActivity)[1]?).map (·.end_datetime) = some none :=
  c3_borrow_next_start_amended ["9:00- a".data, "9:30- b".data] ⟨2024, 3, 5⟩
    0 1 ⟨⟨9, 0⟩, none, "a".data, none⟩ ⟨⟨9, 30⟩, none, "b".data, none⟩
    ⟨⟨9, 30⟩, none, "b".data, none⟩
    [⟨"a".data, ⟨⟨2024, 3, 5⟩, ⟨9, 0⟩⟩, some ⟨⟨2024, 3, 5⟩, ⟨9, 30⟩⟩, none⟩,
     ⟨"b".data, ⟨⟨2024, 3, 5⟩, ⟨9, 30⟩⟩, none, none⟩]
    rfl rfl rfl rfl (by decide) rfl rfl rfl

/-- C7 amended: the adapters strip optional code fences and parse the rest
as JSON; a parse failure (or failed remote call) yields `None` in both
modes, and they never retry — each invocation consults the single
response.  In *task* mode a successfully parsed non-array also ends as
`None` (via `TypeError`/`ValueError` in the merge), but in *thought* mode
a successfully parsed non-array value is returned as-is, not `None` (see
the counterexample). -/
theorem c7_adapter_amended (text : List Char) (ts : Ts) (v : JVal)
    (jloads : List Char → Option JVal) (raw1 raw2 : List Char) (w : JVal)
    (hv : v.isArr = false)
    (h1 : jloads (stripFences raw1) = none)
    (h2 : jloads (stripFences raw2) = some w) :
    analyze_task_core text ts none = none ∧
    analyze_task_core text ts (some v) = none ∧
    analyze_thoughts_with_gpt jloads raw1 = none ∧
    analyze_thoughts_with_gpt jloads raw2 = some w := by
  refine ⟨?_, ?_, h1, h2⟩
  · unfold analyze_task_core
    split
    · rfl
    · split
      · rfl
      · rfl
  · unfold analyze_task_core
    split
    · rfl
    · split
      · rfl
      · cases v with
        | jarr g => exact absurd hv (by simp [JVal.isArr])
        | jnull => rfl
        | jbool x => rfl
        | jnum x => rfl
        | jstr x => rfl
        | jobj x => rfl

/-- C7 witness: `json.loads` failing on `x` gives `None` in both modes;
parsing `5` gives the non-array number 5, which thought mode passes
through; a JSON object counts as non-array for the task-mode conjunct. -/
theorem c7_adapter_amended_witness :
    analyze_task_core "9:00-10:00 a".data ⟨⟨2024, 3, 5⟩, ⟨22, 0⟩, 180⟩ none = none ∧
    analyze_task_core "9:00-10:00 a".data ⟨⟨2024, 3, 5⟩, ⟨22, 0⟩, 180⟩
        (some (.jobj [])) = none ∧
    analyze_thoughts_with_gpt jsonNumLit "x".data = none ∧
    analyze_thoughts_with_gpt jsonNumLit "5".data = some (.jnum 5) :=
  c7_adapter_amended "9:00-10:00 a".data ⟨⟨2024, 3, 5⟩, ⟨22, 0⟩, 180⟩
    (.jobj []) jsonNumLit "x".data "5".data (.jnum 5) rfl rfl rfl

/-! ### Claim C8, amended -/

theorem splitOnNL_ne_nil : ∀ s : List Char, splitOnNL s ≠ [] := by
  intro s
  induction s with
  | nil => simp [splitOnNL]
  | cons c rest ih =>
    unfold splitOnNL
    by_cases hc : c = '\n'
    · simp [hc]
    · rw [if_neg hc]
      cases h : splitOnNL rest with
      | nil => exact absurd h ih
      | cons p ps => simp

theorem splitOnNL_eq_single_empty : ∀ s : List Char, splitOnNL s = [[]] → s = [] := by
  intro s
  induction s with
  | nil => intro _; rfl
  | cons c rest ih =>
    intro h
    unfold splitOnNL at h
    by_cases hc : c = '\n'
    · rw [if_pos hc] at h
      simp at h
      exact absurd h (splitOnNL_ne_nil rest)
    · rw [if_neg hc] at h
      cases hr : splitOnNL rest with
      | nil => exact absurd hr (splitOnNL_ne_nil rest)
      | cons p ps =>
        rw [hr] at h
        simp at h

theorem splitlinesNL_ne_nil (text : List Char) (h : text ≠ []) :
    splitlinesNL text ≠ [] := by
  unfold splitlinesNL
  cases hps : splitOnNL text with
  | nil => exact absurd hps (splitOnNL_ne_nil text)
  | cons a tail =>
    cases tail with
    | nil =>
      by_cases ha : a = []
      · subst ha
        exact absurd (splitOnNL_eq_single_empty text hps) h
      · simp [ha]
    | cons b tail2 =>
      dsimp only
      split <;> simp

/-- C8 amended: the routing decision of `handle_text` depends on the
*first* line of the message (not the first non-empty line): for every
non-empty message text, the thought pipeline is chosen exactly when the
first line, stripped and lowercased, equals «мысли», in which case it
receives the joined remaining lines stripped; otherwise the task pipeline
receives the full original text. -/
theorem c8_route_first_line_amended (text : List Char) (h : text ≠ []) :
    handle_text_route text =
      (if pyLower (pyStrip ((splitlinesNL text).headD [])) = "мысли".data
       then some (true, pyStrip (joinNL (splitlinesNL text).tail))
       else some (false, text)) := by
  obtain ⟨f, r, hfr⟩ := List.exists_cons_of_ne_nil (splitlinesNL_ne_nil text h)
  unfold handle_text_route
  rw [hfr]
  simp

/-- C8 witness: an uppercase sentinel first line routes to thought mode
with the stripped remainder as payload. -/
theorem c8_route_first_line_amended_witness :
    handle_text_route "МЫСЛИ\nпривет мир".data =
      (if pyLower (pyStrip ((splitlinesNL "МЫСЛИ\nпривет мир".data).headD [])) =
          "мысли".data
       then some (true, pyStrip (joinNL (splitlinesNL "МЫСЛИ\nпривет мир".data).tail))
       else some (false, "МЫСЛИ\nпривет мир".data)) :=
  c8_route_first_line_amended "МЫСЛИ\nпривет мир".data (by decide)


/-! ### Claim C5, amended -/

theorem pySplitAux_append_ws (b : List Char) :
    ∀ (a acc : List Char),
      pySplitAux (a ++ ' ' :: b) acc = pySplitAux a acc ++ pySplitAux b [] := by
  intro a
  induction a with
  | nil =>
    intro acc
    by_cases h : acc.isEmpty <;> simp [pySplitAux, isWs, h]
  | cons x xs ih =>
    intro acc
    by_cases hx : isWs x
    · by_cases hacc : acc.isEmpty <;> simp [pySplitAux, hx, hacc, ih]
    · simp [pySplitAux, hx, ih]

theorem pySplit_append_tok (pre tok : List Char) :
    pySplit (pre ++ ' ' :: tok) = pySplit pre ++ pySplit tok :=
  pySplitAux_append_ws tok pre []

theorem pySplit_single_nonws (c : Char) (h : isWs c = false) :
    pySplit [c] = [[c]] := by
  simp [pySplit, pySplitAux, h]

theorem isWs_false_of_digit (c : Char) (h : isDigitChar c = true) :
    isWs c = false := by
  by_contra hw
  rw [Bool.not_eq_false] at hw
  unfold isWs at hw
  simp only [Bool.or_eq_true, beq_iff_eq] at hw
  rcases hw with ((rfl | rfl) | rfl) | rfl <;> exact absurd h (by decide)

theorem digit_toNat_le (c : Char) (h : isDigitChar c = true) :
    c.toNat - 48 ≤ 9 := by
  unfold isDigitChar at h
  simp only [Bool.and_eq_true, decide_eq_true_eq] at h
  omega

theorem natStr_single_digit (v : Nat) (hv : v ≤ 9) :
    natStr v = [Char.ofNat (48 + v)] := by
  interval_cases v <;> rfl

theorem digitsToNat_single (c : Char) : digitsToNat [c] = c.toNat - 48 := by
  simp [digitsToNat]

theorem occursAt_last_single (s : List Char) (c : Char) (n : Nat)
    (hlast : s.drop n = [c]) : occursAt s [c] n = true := by
  simp [occursAt, hlast]

theorem occursAt_len_single (s : List Char) (c : Char) :
    occursAt s [c] s.length = false := by
  simp [occursAt, List.drop_length]

theorem rfindAux_hit (s pat : List Char) (n : Nat)
    (h : occursAt s pat n = true) : rfindAux s pat n = some n := by
  cases n <;> simp [rfindAux, h]

theorem rfindNat_last_single (s : List Char) (c : Char) (n : Nat)
    (hlen : s.length = n + 1) (hlast : s.drop n = [c]) :
    rfindNat s [c] = some n := by
  unfold rfindNat
  rw [hlen]
  have h0 : occursAt s [c] (n + 1) = false := by
    rw [← hlen]; exact occursAt_len_single s c
  simp [rfindAux, h0, rfindAux_hit s [c] n (occursAt_last_single s c n hlast)]

theorem trimRight_append_ws (pre : List Char) (c : Char) (hc : isWs c = true) :
    trimRight (pre ++ [c]) = trimRight pre := by
  unfold trimRight
  rw [List.reverse_append]
  simp [List.dropWhile_cons, hc]

theorem natToDigitsRev_zero (f : Nat) : natToDigitsRev f 0 = [] := by
  cases f <;> simp [natToDigitsRev]

theorem natToDigitsRev_fuel :
    ∀ (f1 f2 n : Nat), n ≤ f1 → n ≤ f2 →
      natToDigitsRev f1 n = natToDigitsRev f2 n := by
  intro f1
  induction f1 with
  | zero =>
    intro f2 n h1 _
    have : n = 0 := by omega
    subst this
    rw [natToDigitsRev_zero, natToDigitsRev_zero]
  | succ g ih =>
    intro f2 n h1 h2
    by_cases hn : n = 0
    · subst hn
      rw [natToDigitsRev_zero, natToDigitsRev_zero]
    · obtain ⟨g2, hg2⟩ : ∃ g2, f2 = g2 + 1 := ⟨f2 - 1, by omega⟩
      subst hg2
      simp only [natToDigitsRev, hn, if_false]
      rw [ih g2 (n / 10) (by omega) (by omega)]

theorem natStr_ne_nil (v : Nat) : natStr v ≠ [] := by
  unfold natStr
  by_cases hv : v = 0
  · simp [hv]
  · obtain ⟨g, hg⟩ : ∃ g, v = g + 1 := ⟨v - 1, by omega⟩
    simp only [hv, if_false]
    rw [hg]
    simp [natToDigitsRev, natToDigitsRev_zero]

theorem natStr_step (a d : Nat) (ha : 1 ≤ a) (hd : d ≤ 9) :
    natStr (a * 10 + d) = natStr a ++ [Char.ofNat (48 + d)] := by
  have hne : a * 10 + d ≠ 0 := by omega
  obtain ⟨k, hk⟩ : ∃ k, a * 10 + d = k + 1 := ⟨a * 10 + d - 1, by omega⟩
  have hmod : (a * 10 + d) % 10 = d := by omega
  have hdiv : (a * 10 + d) / 10 = a := by omega
  unfold natStr
  simp only [hne, if_false, show a ≠ 0 by omega]
  rw [hk, show natToDigitsRev (k + 1) (k + 1) =
      if k + 1 = 0 then [] else (k + 1) % 10 :: natToDigitsRev k ((k + 1) / 10)
    from rfl]
  rw [if_neg (by omega)]
  rw [← hk, hmod, hdiv]
  rw [natToDigitsRev_fuel k a a (by omega) (le_refl a)]
  simp

theorem digitsToNat_append_single (s : List Char) (c : Char) :
    digitsToNat (s ++ [c]) = digitsToNat s * 10 + (c.toNat - 48) := by
  unfold digitsToNat
  rw [List.foldl_append]
  rfl

theorem digitsToNat_foldl_pos :
    ∀ (l : List Char) (acc : Nat), 1 ≤ acc →
      1 ≤ l.foldl (fun a c => a * 10 + (c.toNat - 48)) acc := by
  intro l
  induction l with
  | nil => intro acc h; simpa using h
  | cons c rest ih =>
    intro acc h
    exact ih (acc * 10 + (c.toNat - 48)) (by omega)

theorem toNat_ge_49 (c : Char) (hd : isDigitChar c = true) (hne : c ≠ '0') :
    49 ≤ c.toNat := by
  unfold isDigitChar at hd
  simp only [Bool.and_eq_true, decide_eq_true_eq] at hd
  by_cases h48 : c.toNat = 48
  · exfalso
    apply hne
    have := Char.ofNat_toNat c
    rw [h48] at this
    exact this.symm
  · omega

theorem digitsToNat_pos (c : Char) (rest : List Char)
    (hd : isDigitChar c = true) (hne : c ≠ '0') :
    1 ≤ digitsToNat (c :: rest) := by
  have h49 := toNat_ge_49 c hd hne
  unfold digitsToNat
  exact digitsToNat_foldl_pos rest (0 * 10 + (c.toNat - 48)) (by omega)

theorem natStr_digitsToNat :
    ∀ (s : List Char), s ≠ [] → s.all isDigitChar = true →
      (∀ c0, s.head? = some c0 → c0 ≠ '0') →
      natStr (digitsToNat s) = s := by
  intro s
  induction s using List.reverseRecOn with
  | nil => intro h; exact absurd rfl h
  | append_singleton xs x ih =>
    intro _ hall hhead
    have hallx : xs.all isDigitChar = true ∧ isDigitChar x = true := by
      simp [List.all_append] at hall
      exact ⟨by simpa using List.all_eq_true.mpr (fun c hc => hall.1 c hc), hall.2⟩
    have hx48 : 48 ≤ x.toNat ∧ x.toNat ≤ 57 := by
      have := hallx.2
      unfold isDigitChar at this
      simp only [Bool.and_eq_true, decide_eq_true_eq] at this
      exact this
    by_cases hxsnil : xs = []
    · subst hxsnil
      have hx0 : x ≠ '0' := hhead x rfl
      have h49 := toNat_ge_49 x hallx.2 hx0
      have hvx : digitsToNat [x] = x.toNat - 48 := by
        simp [digitsToNat]
      rw [List.nil_append, hvx,
        natStr_single_digit (x.toNat - 48) (by omega),
        show 48 + (x.toNat - 48) = x.toNat by omega, Char.ofNat_toNat]
    · obtain ⟨y, ys, hxs⟩ := List.exists_cons_of_ne_nil hxsnil
      have hhead' : ∀ c0, xs.head? = some c0 → c0 ≠ '0' := by
        intro c0 hc0
        apply hhead
        rw [hxs] at hc0
        rw [hxs]
        simpa using hc0
      have hih := ih hxsnil hallx.1 hhead'
      have hpos : 1 ≤ digitsToNat xs := by
        rw [hxs]
        apply digitsToNat_pos
        · have hax := hallx.1
          rw [hxs] at hax
          simp [List.all_cons] at hax
          exact hax.1
        · apply hhead'
          rw [hxs]; rfl
      rw [digitsToNat_append_single,
        natStr_step (digitsToNat xs) (x.toNat - 48) hpos (by omega), hih,
        show 48 + (x.toNat - 48) = x.toNat by omega, Char.ofNat_toNat]

theorem digitsToNat_cons_zero (rest : List Char) :
    digitsToNat ('0' :: rest) = digitsToNat rest := rfl

/-- Every nonempty string of digits is a (possibly empty) block of leading
zeros followed by the canonical decimal representation of its value. -/
theorem tok_decomp :
    ∀ (tok : List Char), tok ≠ [] → tok.all isDigitChar = true →
      ∃ zs, tok = zs ++ natStr (digitsToNat tok) ∧ ∀ z ∈ zs, z = '0' := by
  intro tok
  induction tok with
  | nil => intro h; exact absurd rfl h
  | cons c rest ih =>
    intro _ hall
    simp only [List.all_cons, Bool.and_eq_true] at hall
    by_cases hc0 : c = '0'
    · subst hc0
      by_cases hrnil : rest = []
      · subst hrnil
        refine ⟨[], ?_, by simp⟩
        simp [digitsToNat, natStr]
      · obtain ⟨zs, hzs, hz⟩ := ih hrnil hall.2
        refine ⟨'0' :: zs, ?_, ?_⟩
        · rw [digitsToNat_cons_zero]
          rw [List.cons_append, ← hzs]
        · intro z hzmem
          rcases List.mem_cons.mp hzmem with h | h
          · exact h
          · exact hz z h
    · refine ⟨[], ?_, by simp⟩
      rw [List.nil_append]
      exact (natStr_digitsToNat (c :: rest) (by simp)
        (by simp [List.all_cons, hall.1, hall.2])
        (by intro c0 hc0eq; simp at hc0eq; exact hc0eq ▸ hc0)).symm

theorem trimRight_all_zero (zs : List Char) (hz : ∀ z ∈ zs, z = '0') :
    trimRight zs = zs := by
  unfold trimRight
  cases hrev : zs.reverse with
  | nil =>
    simp at hrev
    simp [hrev]
  | cons c t =>
    have hc : c ∈ zs := by
      rw [← List.mem_reverse, hrev]
      simp
    have hcws : isWs c = false := by rw [hz c hc]; rfl
    rw [List.dropWhile_cons, hcws]
    simp only [Bool.false_eq_true, if_false]
    rw [← hrev, List.reverse_reverse]

theorem occursAt_false_of_lt (s pat : List Char) (i : Nat)
    (hp : 1 ≤ pat.length)
    (h : s.length < i + pat.length) : occursAt s pat i = false := by
  unfold occursAt
  rw [beq_eq_false_iff_ne]
  intro heq
  have hlen := congrArg List.length heq
  simp only [List.length_take, List.length_drop] at hlen
  omega

theorem rfindAux_topmost (s pat : List Char) (k : Nat) :
    ∀ m, k ≤ m → (∀ i, k < i → i ≤ m → occursAt s pat i = false) →
      occursAt s pat k = true → rfindAux s pat m = some k := by
  intro m
  induction m with
  | zero =>
    intro hk _ hocc
    have : k = 0 := by omega
    subst this
    simp [rfindAux, hocc]
  | succ j ih =>
    intro hk hfalse hocc
    by_cases hkj : k = j + 1
    · subst hkj
      exact rfindAux_hit s pat (j + 1) hocc
    · have hfj : occursAt s pat (j + 1) = false :=
        hfalse (j + 1) (by omega) (le_refl _)
      simp only [rfindAux, hfj, Bool.false_eq_true, if_false]
      exact ih (by omega) (fun i h1 h2 => hfalse i h1 (by omega)) hocc

/-- `rfind` on a pattern that occurs as a suffix: the last occurrence is at
`s.length - pat.length`, because no later index leaves room for `pat`. -/
theorem rfindNat_suffix (s pat : List Char) (hp : pat ≠ [])
    (hle : pat.length ≤ s.length)
    (hsuf : s.drop (s.length - pat.length) = pat) :
    rfindNat s pat = some (s.length - pat.length) := by
  have hplen : 1 ≤ pat.length := by
    cases pat with
    | nil => exact absurd rfl hp
    | cons a t => simp
  unfold rfindNat
  apply rfindAux_topmost s pat (s.length - pat.length) s.length (by omega)
  · intro i h1 h2
    exact occursAt_false_of_lt s pat i hplen (by omega)
  · unfold occursAt
    rw [hsuf]
    simp

theorem pySplitAux_all_nonws :
    ∀ (tok acc : List Char), (∀ c ∈ tok, isWs c = false) →
      pySplitAux tok acc =
        if (acc.reverse ++ tok).isEmpty then [] else [acc.reverse ++ tok] := by
  intro tok
  induction tok with
  | nil =>
    intro acc _
    by_cases h : acc.isEmpty
    · have : acc = [] := List.isEmpty_iff.mp h
      subst this
      simp [pySplitAux]
    · have hacc : acc ≠ [] := fun hnil => by rw [hnil] at h; exact h rfl
      simp [pySplitAux, h, List.isEmpty_iff, hacc]
  | cons c rest ih =>
    intro acc hall
    have hc : isWs c = false := hall c (by simp)
    have hrest : ∀ x ∈ rest, isWs x = false := fun x hx => hall x (by simp [hx])
    simp only [pySplitAux, hc, Bool.false_eq_true, if_false]
    rw [ih (c :: acc) hrest]
    simp [List.append_assoc]

theorem pySplit_all_nonws (tok : List Char) (hne : tok ≠ [])
    (h : ∀ c ∈ tok, isWs c = false) : pySplit tok = [tok] := by
  unfold pySplit
  rw [pySplitAux_all_nonws tok [] h]
  simp [List.isEmpty_iff, hne]

theorem digit_all_nonws (tok : List Char) (h : tok.all isDigitChar = true) :
    ∀ c ∈ tok, isWs c = false :=
  fun c hc => isWs_false_of_digit c (List.all_eq_true.mp h c hc)

/-- The general CSAT extraction on a stripped body whose final
whitespace-delimited token `tok` is purely numeric: the value of `tok`
becomes the rating and the body is cut right before the canonical decimal
digits of that value — i.e. after `pre` and the leading zeros of `tok` —
then right-stripped. -/
theorem extractCsat_numeric (pre tok : List Char) (h1 : tok ≠ [])
    (h2 : tok.all isDigitChar = true) :
    extractCsat (pre ++ ' ' :: tok) =
      (some (digitsToNat tok),
       trimRight (pre ++ ' ' ::
         tok.take (tok.length - (natStr (digitsToNat tok)).length))) := by
  obtain ⟨zs, hdecomp, hz⟩ := tok_decomp tok h1 h2
  obtain ⟨canon, hcanon⟩ : ∃ canon, natStr (digitsToNat tok) = canon := ⟨_, rfl⟩
  rw [hcanon] at hdecomp
  have hcanne : canon ≠ [] := hcanon ▸ natStr_ne_nil (digitsToNat tok)
  have hzs_take : tok.take (tok.length - canon.length) = zs := by
    rw [hdecomp, show (zs ++ canon).length - canon.length = zs.length by simp]
    exact List.take_left zs canon
  have hne : (pre ++ ' ' :: tok).isEmpty = false := by simp
  have hlast2 : (pySplit (pre ++ ' ' :: tok)).getLast? = some tok := by
    rw [pySplit_append_tok, pySplit_all_nonws tok h1 (digit_all_nonws tok h2)]
    rw [List.getLast?_append_of_ne_nil (pySplit pre)
      (show ([tok] : List (List Char)) ≠ [] by simp)]
    rfl
  have happ : pre ++ ' ' :: tok = (pre ++ ' ' :: zs) ++ canon := by
    rw [hdecomp]
    simp
  have hsublen : (pre ++ ' ' :: tok).length - canon.length =
      (pre ++ ' ' :: zs).length := by
    rw [happ]
    simp only [List.length_append, List.length_cons]
    omega
  have hdrop : (pre ++ ' ' :: tok).drop
      ((pre ++ ' ' :: tok).length - canon.length) = canon := by
    rw [hsublen, happ]
    exact List.drop_left _ _
  have hpatle : canon.length ≤ (pre ++ ' ' :: tok).length := by
    rw [happ]
    simp only [List.length_append, List.length_cons]
    omega
  have hrf : rfindNat (pre ++ ' ' :: tok) canon =
      some ((pre ++ ' ' :: zs).length) := by
    rw [← hsublen]
    exact rfindNat_suffix _ _ hcanne hpatle hdrop
  have htake : (pre ++ ' ' :: tok).take ((pre ++ ' ' :: zs).length) =
      pre ++ ' ' :: zs := by
    rw [happ]
    exact List.take_left _ _
  unfold extractCsat
  rw [hlast2]
  simp only [hne, Bool.false_eq_true, if_false, h2, if_true, hcanon, hrf,
    htake, hzs_take]

/-- The same extraction when the stripped body *is* the numeric token (no
leading text at all): the name is exactly the token's leading-zero
block. -/
theorem extractCsat_numeric_bare (tok : List Char) (h1 : tok ≠ [])
    (h2 : tok.all isDigitChar = true) :
    extractCsat tok =
      (some (digitsToNat tok),
       tok.take (tok.length - (natStr (digitsToNat tok)).length)) := by
  obtain ⟨zs, hdecomp, hz⟩ := tok_decomp tok h1 h2
  obtain ⟨canon, hcanon⟩ : ∃ canon, natStr (digitsToNat tok) = canon := ⟨_, rfl⟩
  rw [hcanon] at hdecomp
  have hcanne : canon ≠ [] := hcanon ▸ natStr_ne_nil (digitsToNat tok)
  have hzs_take : tok.take (tok.length - canon.length) = zs := by
    rw [hdecomp, show (zs ++ canon).length - canon.length = zs.length by simp]
    exact List.take_left zs canon
  have hne : tok.isEmpty = false := by
    simp [List.isEmpty_iff, h1]
  have hlast2 : (pySplit tok).getLast? = some tok := by
    rw [pySplit_all_nonws tok h1 (digit_all_nonws tok h2)]
    rfl
  have hsublen : tok.length - canon.length = zs.length := by
    rw [hdecomp]
    simp
  have hdrop : tok.drop (tok.length - canon.length) = canon := by
    rw [hsublen, hdecomp]
    exact List.drop_left _ _
  have hpatle : canon.length ≤ tok.length := by
    rw [hdecomp]
    simp
  have hrf : rfindNat tok canon = some zs.length := by
    rw [← hsublen]
    exact rfindNat_suffix _ _ hcanne hpatle hdrop
  have htake : tok.take zs.length = zs := by
    rw [hdecomp]
    exact List.take_left _ _
  unfold extractCsat
  rw [hlast2]
  simp only [hne, Bool.false_eq_true, if_false, h2, if_true, hcanon, hrf,
    htake, hzs_take, trimRight_all_zero zs hz]

/-- C5 amended: if the final whitespace-delimited token of the trimmed body
is purely numeric, its integer value becomes `csat` and the body is cut at
the last occurrence of the *canonical* decimal form of that value, then
right-stripped — for any token without extra leading zeros this removes
exactly the token and the separating whitespace, while a leading-zero
token keeps its zeros in the name (see the counterexample); if the final
token is not purely numeric, `csat` is absent and the body is
unchanged. -/
theorem c5_csat_amended (pre pre2 tok tok2 bc tokNeg : List Char)
    (h1 : tok ≠ []) (h2 : tok.all isDigitChar = true)
    (h3 : tok2 ≠ []) (h4 : tok2.all isDigitChar = true)
    (hcan2 : natStr (digitsToNat tok2) = tok2)
    (h5 : (pySplit bc).getLast? = some tokNeg)
    (h6 : tokNeg.all isDigitChar = false) :
    extractCsat (pre ++ ' ' :: tok) =
      (some (digitsToNat tok),
       trimRight (pre ++ ' ' ::
         tok.take (tok.length - (natStr (digitsToNat tok)).length))) ∧
    extractCsat (pre2 ++ ' ' :: tok2) =
      (some (digitsToNat tok2), trimRight pre2) ∧
    extractCsat bc = (none, bc) := by
  refine ⟨extractCsat_numeric pre tok h1 h2, ?_, ?_⟩
  · rw [extractCsat_numeric pre2 tok2 h3 h4, hcan2]
    rw [show tok2.length - tok2.length = 0 by omega]
    rw [List.take_zero]
    rw [trimRight_append_ws pre2 ' ' rfl]
  · by_cases hbc : bc.isEmpty
    · have hnil : bc = [] := List.isEmpty_iff.mp hbc
      subst hnil
      rfl
    · unfold extractCsat
      rw [h5]
      simp only [hbc, Bool.false_eq_true, if_false, h6]

/-- C5 witness: body `читаю книгу 07` keeps the stray zero in the name with
csat 7; the multi-digit body `читаю книгу 10` loses exactly the token and
the separating space, giving name `читаю книгу` and csat 10; and body
`читаю книгу` (last token not numeric) yields no csat and an unchanged
body. -/
theorem c5_csat_amended_witness :
    extractCsat ("читаю книгу".data ++ ' ' :: "07".data) =
      (some (digitsToNat "07".data),
       trimRight ("читаю книгу".data ++ ' ' ::
         "07".data.take
           ("07".data.length - (natStr (digitsToNat "07".data)).length))) ∧
    extractCsat ("читаю книгу".data ++ ' ' :: "10".data) =
      (some (digitsToNat "10".data), trimRight "читаю книгу".data) ∧
    extractCsat "читаю книгу".data = (none, "читаю книгу".data) :=
  c5_csat_amended "читаю книгу".data "читаю книгу".data "07".data "10".data
    "читаю книгу".data "книгу".data (by decide) rfl (by decide) rfl rfl rfl rfl

/-! ### Claim C10, amended -/

theorem matchLine_dropWhile_ne (l : List Char) (x : Tm × Option Tm × List Char)
    (h : matchLine l = some x) : l.dropWhile isWs ≠ [] := by
  intro hnil
  unfold matchLine at h
  rw [hnil] at h
  simp [parseTimeAt] at h

theorem pyStrip_isEmpty_false (l : List Char) (h : l.dropWhile isWs ≠ []) :
    (pyStrip l).isEmpty = false := by
  have hex : ∃ c ∈ l, ¬ isWs c = true := by
    by_contra hall
    push_neg at hall
    exact h (List.dropWhile_eq_nil_iff.mpr hall)
  obtain ⟨c, hcl, hcws⟩ := hex
  rw [Bool.not_eq_true] at hcws
  have hne2 : pyStrip l ≠ [] := by
    intro hnil
    unfold pyStrip trimLeft trimRight at hnil
    have hall2 : ∀ x ∈ (l.reverse.dropWhile isWs).reverse, isWs x = true :=
      List.dropWhile_eq_nil_iff.mp hnil
    have hcrev : c ∈ l.reverse := List.mem_reverse.mpr hcl
    have hsplit := List.takeWhile_append_dropWhile isWs l.reverse
    rcases List.mem_append.mp (hsplit.symm ▸ hcrev) with hmem | hmem
    · have := List.mem_takeWhile_imp hmem
      rw [hcws] at this
      exact absurd this (by simp)
    · have := hall2 c (List.mem_reverse.mpr hmem)
      rw [hcws] at this
      exact absurd this (by simp)
  cases hem : (pyStrip l).isEmpty
  · rfl
  · exact absurd (List.isEmpty_iff.mp hem) hne2

/-- A matched line whose stripped body is a purely-numeric token is still
turned into a raw activity record (never skipped): the token's value is
the rating and the name is the token's leading-zero block. -/
theorem lineToRaw_numeric (l : List Char) (t1 : Tm) (e : Option Tm)
    (body tok : List Char)
    (hm : matchLine l = some (t1, e, body))
    (hstrip : pyStrip body = tok)
    (h1 : tok ≠ []) (h2 : tok.all isDigitChar = true) :
    lineToRaw l = some ⟨t1, e,
      tok.take (tok.length - (natStr (digitsToNat tok)).length),
      some (digitsToNat tok)⟩ := by
  unfold lineToRaw
  rw [pyStrip_isEmpty_false l (matchLine_dropWhile_ne l _ hm)]
  simp only [Bool.false_eq_true, if_false]
  rw [hm]
  dsimp only
  rw [hstrip, extractCsat_numeric_bare tok h1 h2]

/-- The leading-zero block of a numeric token: all its characters are
`'0'`, and it is empty exactly when the token is already the canonical
decimal representation of its value. -/
theorem tok_zeros_spec (tok : List Char) (h1 : tok ≠ [])
    (h2 : tok.all isDigitChar = true) :
    (∀ z ∈ tok.take (tok.length - (natStr (digitsToNat tok)).length), z = '0') ∧
    (tok.take (tok.length - (natStr (digitsToNat tok)).length) = [] ↔
      natStr (digitsToNat tok) = tok) := by
  obtain ⟨zs, hdecomp, hz⟩ := tok_decomp tok h1 h2
  obtain ⟨canon, hcanon⟩ : ∃ canon, natStr (digitsToNat tok) = canon := ⟨_, rfl⟩
  rw [hcanon] at hdecomp ⊢
  have hzs_take : tok.take (tok.length - canon.length) = zs := by
    rw [hdecomp, show (zs ++ canon).length - canon.length = zs.length by simp]
    exact List.take_left zs canon
  rw [hzs_take]
  refine ⟨hz, ?_, ?_⟩
  · intro hzs_nil
    rw [hdecomp, hzs_nil, List.nil_append]
  · intro hcan
    have hlen := congrArg List.length hdecomp
    rw [hcan] at hlen
    simp only [List.length_append] at hlen
    exact List.eq_nil_of_length_eq_zero (by omega)

/-- C10 amended: every line matching the temporal pattern whose trimmed
body is a single purely-numeric token is still emitted (never skipped):
its `csat` is the token's integer value and its name is the token with the
trailing canonical decimal form of that value removed — empty exactly when
the token has no extra leading zeros (the counterexample shows `07`
leaving `0`) — and that name is included in the list sent to the
classifier. -/
theorem c10_numeric_body_amended (l : List Char) (d : PyDate) (t1 : Tm)
    (e : Option Tm) (body tok : List Char) (ts : List ParsedActivity)
    (hm : matchLine l = some (t1, e, body))
    (hstrip : pyStrip body = tok)
    (h1 : tok ≠ []) (h2 : tok.all isDigitChar = true)
    (hok : parse_activity_lines [l] d = .ok ts) :
    lineToRaw l = some ⟨t1, e,
      tok.take (tok.length - (natStr (digitsToNat tok)).length),
      some (digitsToNat tok)⟩ ∧
    taskNames ts =
      [tok.take (tok.length - (natStr (digitsToNat tok)).length)] ∧
    ((tok.take (tok.length - (natStr (digitsToNat tok)).length)).isEmpty = true ↔
      natStr (digitsToNat tok) = tok) := by
  have hraw := lineToRaw_numeric l t1 e body tok hm hstrip h1 h2
  refine ⟨hraw, ?_, ?_⟩
  · have hp1 : pass1 [l] =
        [⟨t1, e, tok.take (tok.length - (natStr (digitsToNat tok)).length),
          some (digitsToNat tok)⟩] := by
      unfold pass1
      simp [List.filterMap_cons, hraw]
    unfold parse_activity_lines at hok
    rw [hp1] at hok
    obtain ⟨hlen, hget⟩ := mapE_ok_get (finalizeOne d) _ ts hok
    have hfe : (fillEnds [⟨t1, e,
        tok.take (tok.length - (natStr (digitsToNat tok)).length),
        some (digitsToNat tok)⟩])[0]? =
        some (⟨t1, e,
          tok.take (tok.length - (natStr (digitsToNat tok)).length),
          some (digitsToNat tok)⟩ : RawTask2) := by
      cases e <;> rfl
    obtain ⟨b, hb0, hfb⟩ := hget 0 _ hfe
    have hname := (finalizeOne_ok_start d _ b hfb).2.1
    have hlen1 : (fillEnds [(⟨t1, e,
        tok.take (tok.length - (natStr (digitsToNat tok)).length),
        some (digitsToNat tok)⟩ : RawTask)]).length = 1 := by
      cases e <;> rfl
    rw [hlen1] at hlen
    have hts : ts = [b] := by
      cases ts with
      | nil => simp at hb0
      | cons a rest =>
        cases rest with
        | nil =>
          simp at hb0
          rw [hb0]
        | cons a2 r2 =>
          simp only [List.length_cons] at hlen
          omega
    rw [hts]
    unfold taskNames
    rw [List.map_singleton, hname]
  · rw [List.isEmpty_iff]
    exact (tok_zeros_spec tok h1 h2).2

/-- C10 witness: the matched line `23:15 - 23:45 10` (multi-digit rating)
yields a record with the empty name and csat 10, and the classifier list
holds that empty name. -/
theorem c10_numeric_body_amended_witness :
    lineToRaw "23:15 - 23:45 10".data = some ⟨⟨23, 15⟩, some ⟨23, 45⟩,
      "10".data.take
        ("10".data.length - (natStr (digitsToNat "10".data)).length),
      some (digitsToNat "10".data)⟩ ∧
    taskNames [⟨[], ⟨⟨2024, 3, 5⟩, ⟨23, 15⟩⟩,
        some ⟨⟨2024, 3, 5⟩, ⟨23, 45⟩⟩, some 10⟩] =
      ["10".data.take
        ("10".data.length - (natStr (digitsToNat "10".data)).length)] ∧
    (("10".data.take
        ("10".data.length - (natStr (digitsToNat "10".data)).length)).isEmpty =
          true ↔
      natStr (digitsToNat "10".data) = "10".data) :=
  c10_numeric_body_amended "23:15 - 23:45 10".data ⟨2024, 3, 5⟩
    ⟨23, 15⟩ (some ⟨23, 45⟩) "10".data "10".data
    [⟨[], ⟨⟨2024, 3, 5⟩, ⟨23, 15⟩⟩, some ⟨⟨2024, 3, 5⟩, ⟨23, 45⟩⟩, some 10⟩]
    rfl rfl (by decide) rfl rfl

end ProductiveBot
